import Mathlib

/-!
# Verification of the beyond-vector-search core

A shallow embedding of the Python sources in `src/beyond_vector_search/`
(`text.py`, `index.py`, `retrievers.py`, `router.py`, `telemetry.py`),
together with theorems settling the specification claims.

Modelling conventions:
* Python `float` arithmetic is modelled by an arbitrary linear ordered field
  `K` (instantiated at `ℚ` for executable checks and at `ℝ` where
  transcendental functions matter); `math.log` / `math.sqrt` are passed in
  as explicit function parameters.
* Python `dict` (insertion ordered, unique keys) is modelled by an
  association list updated in place (`alSet`) and queried by first match
  (`alGet`).
* Python `set` is modelled by a duplicate-free list; conversions
  `set(xs)` used only for iteration are modelled by first-occurrence
  deduplication (`dedupFirst`), whose order never influences any value
  proved about.
-/

namespace BVS

/-! ## Association lists: the model of Python dicts -/

/-- Lookup in a Python-dict model: first binding of `key`. -/
def alGet {V : Type} (l : List (String × V)) (key : String) : Option V :=
  match l with
  | [] => none
  | (k, v) :: rest => if k = key then some v else alGet rest key

/-- `d[key] = v` on a Python-dict model: overwrite in place, else append. -/
def alSet {V : Type} (l : List (String × V)) (key : String) (v : V) :
    List (String × V) :=
  match l with
  | [] => [(key, v)]
  | (k, w) :: rest =>
    if k = key then (k, v) :: rest else (k, w) :: alSet rest key v

/-- First-occurrence deduplication (model of iterating `set(xs)`). -/
def dedupFirst (l : List String) : List String :=
  l.foldl (fun acc x => if acc.contains x then acc else acc ++ [x]) []

/-! ## `text.py` -/

/-- `[A-Za-z0-9]` of the token regex (ASCII alphanumerics). -/
def isTokChar (c : Char) : Bool := c.isAlpha || c.isDigit

/-- After an alphanumeric run, greedily consume `(?:[-_][A-Za-z0-9]+)*`:
a hyphen/underscore joiner followed by another alphanumeric run, repeated.
Returns the consumed extension and the remaining characters.  The `fuel`
argument only makes the recursion structural (so the kernel can evaluate
it); every recursive call strictly consumes input characters, so with
`fuel = cs.length + 1` the out-of-fuel branch is never reached. -/
def tokExt : Nat → List Char → List Char × List Char
  | 0, cs => ([], cs)
  | _ + 1, [] => ([], [])
  | _ + 1, [c] => ([], [c])
  | fuel + 1, c1 :: c2 :: rest =>
    if (c1 = '-' || c1 = '_') && isTokChar c2 then
      ((c1 :: (c2 :: rest).takeWhile isTokChar)
          ++ (tokExt fuel ((c2 :: rest).dropWhile isTokChar)).1,
        (tokExt fuel ((c2 :: rest).dropWhile isTokChar)).2)
    else ([], c1 :: c2 :: rest)

/-- One pass of `re.findall` for `[A-Za-z0-9]+(?:[-_][A-Za-z0-9]+)*`:
token character lists in match order.  Fuelled like `tokExt`. -/
def tokenizeChars : Nat → List Char → List (List Char)
  | 0, _ => []
  | _ + 1, [] => []
  | fuel + 1, c :: rest =>
    if isTokChar c then
      ((c :: rest).takeWhile isTokChar
          ++ (tokExt (rest.length + 1) ((c :: rest).dropWhile isTokChar)).1)
        :: tokenizeChars fuel
            (tokExt (rest.length + 1) ((c :: rest).dropWhile isTokChar)).2
    else tokenizeChars fuel rest

/-- `tokenize` from `text.py`: regex findall, then lowercase each token. -/
def tokenize (text : String) : List String :=
  (tokenizeChars (text.data.length + 1) text.data).map
    (fun t => String.mk (t.map Char.toLower))

/-- `term_freq` from `index.py`: token → occurrence count, insertion order. -/
def term_freq (tokens : List String) : List (String × Nat) :=
  tokens.foldl (fun tf t => alSet tf t ((alGet tf t).getD 0 + 1)) []

/-- `stable_topk` from `text.py`: indices of the top-k scores, sorted by the
key `(-scores[i], i)` ascending, truncated to `k`. -/
def stable_topk {K : Type} [LinearOrderedField K] (scores : List K) (k : Nat) :
    List Nat :=
  ((List.range scores.length).mergeSort (fun i j =>
      decide (scores.getD i 0 > scores.getD j 0
        ∨ (scores.getD i 0 = scores.getD j 0 ∧ i ≤ j)))).take k

/-! ## `types.py` -/

/-- `Document` from `types.py`. -/
structure Document where
  doc_id : String
  title : String
  text : String
deriving DecidableEq, Repr

/-- `RetrievalResult` from `types.py`. -/
structure RetrievalResult (K : Type) where
  doc : Document
  score : K
deriving DecidableEq, Repr

/-- `Strategy` from `types.py`: `Literal["vector", "keyword", "hybrid"]`. -/
inductive Strategy where
  | vector
  | keyword
  | hybrid
deriving DecidableEq, Repr

/-- The literal string each `Strategy` stands for in the Python source. -/
def strategyName : Strategy → String
  | .vector => "vector"
  | .keyword => "keyword"
  | .hybrid => "hybrid"

/-! ## `index.py` -/

/-- `CorpusStats` from `index.py`. -/
structure CorpusStats (K : Type) where
  vocab : List String
  df : List (String × Nat)
  idf : List (String × K)
  avg_dl : K
  doc_len : List (String × Nat)
  rare_terms : List String

section Field

variable {K : Type} [LinearOrderedField K]

/-- The accumulating loop of `build_corpus_stats`: one pass over the
documents building `(df, doc_len, total_len)`. -/
def corpusAccum (docs : List Document)
    (acc : List (String × Nat) × List (String × Nat) × Nat) :
    List (String × Nat) × List (String × Nat) × Nat :=
  docs.foldl (fun acc d =>
      let toks := tokenize (d.title ++ " " ++ d.text)
      ((dedupFirst toks).foldl
          (fun df t => alSet df t ((alGet df t).getD 0 + 1)) acc.1,
        alSet acc.2.1 d.doc_id toks.length,
        acc.2.2 + toks.length)) acc

/-- `build_corpus_stats` from `index.py`.  `lg` models `math.log`. -/
def build_corpus_stats (lg : K → K) (docs : List Document)
    (rare_df_threshold : Nat) : CorpusStats K :=
  let acc := corpusAccum docs ([], [], 0)
  let df := acc.1
  let n_docs : Nat := max 1 docs.length
  let idf := df.map (fun p =>
    (p.1, lg (1.0 + ((n_docs : K) - (p.2 : K) + 0.5) / ((p.2 : K) + 0.5))))
  { vocab := df.map Prod.fst
    df := df
    idf := idf
    avg_dl := (acc.2.2 : K) / (n_docs : K)
    doc_len := acc.2.1
    rare_terms := (df.filter (fun p => p.2 ≤ rare_df_threshold)).map Prod.fst }

/-! ## `text.py`: query features -/

end Field

/-- `QueryFeatures` from `text.py`. -/
structure QueryFeatures (K : Type) where
  n_tokens : Nat
  digit_ratio : K
  oov_ratio : K
  rare_ratio : K
deriving DecidableEq, Repr

section Field

variable {K : Type} [LinearOrderedField K]

/-- `featurize_query` from `text.py`.  `vocab` and `rare_terms` model the
Python sets by their element lists (membership queries only). -/
def featurize_query (query : String) (vocab rare_terms : List String) :
    QueryFeatures K :=
  let toks := tokenize query
  let n := toks.length
  if n = 0 then ⟨0, 0.0, 0.0, 0.0⟩
  else
    ⟨n,
      ((toks.countP (fun t => t.data.any Char.isDigit)) : K) / (n : K),
      ((toks.countP (fun t => !(vocab.contains t))) : K) / (n : K),
      ((toks.countP (fun t => rare_terms.contains t)) : K) / (n : K)⟩

/-! ## `router.py` -/

end Field

/-- `RouterState` from `router.py`. -/
structure RouterState (K : Type) where
  weight_vector : K
  weight_keyword : K
  weight_hybrid : K
  lr : K
deriving DecidableEq, Repr

section Field

variable {K : Type} [LinearOrderedField K]

/-- The dataclass defaults of `RouterState`. -/
def RouterState.init : RouterState K := ⟨0.0, 0.0, 0.0, 0.25⟩

/-- `RouterState.to_json`. -/
def RouterState.to_json (st : RouterState K) : List (String × K) :=
  [("weight_vector", st.weight_vector),
    ("weight_keyword", st.weight_keyword),
    ("weight_hybrid", st.weight_hybrid),
    ("lr", st.lr)]

/-- `RouterState.from_json`: each field read with `.get(key, default)`. -/
def RouterState.from_json (obj : List (String × K)) : RouterState K :=
  ⟨(alGet obj "weight_vector").getD 0.0,
    (alGet obj "weight_keyword").getD 0.0,
    (alGet obj "weight_hybrid").getD 0.0,
    (alGet obj "lr").getD 0.25⟩

/-- The heuristic/learned scoring and arg-max selection inside
`AdaptiveRouter.choose` (the state is passed explicitly; in the source it
is loaded from the telemetry store). -/
def chooseStrategy (feats : QueryFeatures K) (state : RouterState K) :
    Strategy :=
  let heuristic_keyword :=
    1.25 * feats.digit_ratio + 1.00 * feats.oov_ratio + 1.25 * feats.rare_ratio
      + (if feats.n_tokens ≤ 3 then 0.10 else 0.0)
  let heuristic_vector :=
    0.50 * (1.0 - min 1.0 (feats.oov_ratio + feats.rare_ratio))
  let heuristic_hybrid :=
    0.35 * heuristic_keyword + 0.35 * heuristic_vector
      + 0.15 * (1.0 - |feats.oov_ratio - feats.rare_ratio|)
  let score_keyword := heuristic_keyword + state.weight_keyword
  let score_vector := heuristic_vector + state.weight_vector
  let score_hybrid := heuristic_hybrid + state.weight_hybrid
  if score_hybrid ≥ score_keyword ∧ score_hybrid ≥ score_vector then
    Strategy.hybrid
  else if score_keyword ≥ score_vector then Strategy.keyword
  else Strategy.vector

/-- `AdaptiveRouter.choose`, as a function of the router's `vocab` and
`rare_terms` and of the loaded `RouterState` (the decision trace dict is
omitted; its entries are exactly the intermediate values above). -/
def AdaptiveRouter.choose (vocab rare_terms : List String)
    (state : RouterState K) (query : String) : Strategy × QueryFeatures K :=
  let feats : QueryFeatures K := featurize_query query vocab rare_terms
  (chooseStrategy feats state, feats)

end Field

/-- Lexicographic comparison of character lists by code point, the model of
Python string comparison used for the tie-break in `update_from_scores`. -/
def lexLe : List Char → List Char → Bool
  | [], _ => true
  | _ :: _, [] => false
  | a :: as, b :: bs =>
    if a.val < b.val then true
    else if a.val = b.val then lexLe as bs
    else false

section Field

variable {K : Type} [LinearOrderedField K]

/-- The sort key `lambda kv: (-kv[1], kv[0])` of `update_from_scores`, as a
boolean "less or equal" on `(strategy, score)` pairs. -/
def scoreCmp (x y : Strategy × K) : Bool :=
  if x.2 > y.2 then true
  else if x.2 = y.2 then lexLe (strategyName x.1).data (strategyName y.1).data
  else false

/-- The `st.weight_X += delta_winner` branch of `update_from_scores`. -/
def addWinner (st : RouterState K) (winner : Strategy) (d : K) :
    RouterState K :=
  match winner with
  | .vector => { st with weight_vector := st.weight_vector + d }
  | .keyword => { st with weight_keyword := st.weight_keyword + d }
  | .hybrid => { st with weight_hybrid := st.weight_hybrid + d }

/-- The `st.weight_X -= delta_loser` branch of `update_from_scores`. -/
def subLoser (st : RouterState K) (loser : Strategy) (d : K) :
    RouterState K :=
  match loser with
  | .vector => { st with weight_vector := st.weight_vector - d }
  | .keyword => { st with weight_keyword := st.weight_keyword - d }
  | .hybrid => { st with weight_hybrid := st.weight_hybrid - d }

/-- `AdaptiveRouter.update_from_scores`, with the state passed explicitly
(in the source a `None` state is loaded from the store first).  The boolean
records whether control reached `self.save_state` (whether the new state
was persisted). -/
def update_from_scores_full (st : RouterState K)
    (scores : List (Strategy × K)) : RouterState K × Bool :=
  match scores with
  | [] => (st, false)
  | (s0, v0) :: rest =>
    let winner := ((((s0, v0) :: rest).mergeSort scoreCmp).headD (s0, v0)).1
    let maxv := (rest.map Prod.snd).foldl max v0
    let minv := (rest.map Prod.snd).foldl min v0
    if maxv = minv then (st, false)
    else
      let losers :=
        (((s0, v0) :: rest).map Prod.fst).filter (fun s => decide (s ≠ winner))
      if losers.isEmpty then (st, false)
      else
        let delta_loser := st.lr / (losers.length : K)
        let st1 := addWinner st winner st.lr
        (losers.foldl (fun acc s => subLoser acc s delta_loser) st1, true)

/-- The state returned by `AdaptiveRouter.update_from_scores`. -/
def update_from_scores (st : RouterState K) (scores : List (Strategy × K)) :
    RouterState K :=
  (update_from_scores_full st scores).1

/-- Total learned weight mass of a `RouterState`. -/
def weightTotal (st : RouterState K) : K :=
  st.weight_vector + st.weight_keyword + st.weight_hybrid

/-! ## `retrievers.py` -/

/-- Body of `_dot` without the size-swap: iterate `a`, look up in `b`. -/
def dotAux (a b : List (String × K)) : K :=
  (a.map (fun p => p.2 * ((alGet b p.1).getD 0.0))).sum

/-- `_dot` from `retrievers.py` (iterates over the smaller dict). -/
def dotp (a b : List (String × K)) : K :=
  if a.length > b.length then dotAux b a else dotAux a b

/-- `_l2norm` from `retrievers.py`.  `sq` models `math.sqrt`. -/
def l2norm (sq : K → K) (v : List (String × K)) : K :=
  sq ((v.map (fun p => p.2 * p.2)).sum)

end Field

/-- Replace each maximal whitespace run by a single space
(`_WS_RE.sub(" ", ·)`), fuelled structurally like the tokenizer. -/
def collapseWs : Nat → List Char → List Char
  | 0, _ => []
  | _ + 1, [] => []
  | fuel + 1, c :: rest =>
    if c.isWhitespace then
      ' ' :: collapseWs fuel (rest.dropWhile Char.isWhitespace)
    else c :: collapseWs fuel rest

/-- `.strip()` of whitespace at both ends. -/
def stripEnds (l : List Char) : List Char :=
  ((l.dropWhile Char.isWhitespace).reverse.dropWhile Char.isWhitespace).reverse

/-- The normalisation inside `_char_ngrams`:
`_WS_RE.sub(" ", text.lower()).strip()`. -/
def normalizeText (text : String) : List Char :=
  stripEnds (collapseWs (text.data.length + 1) (text.data.map Char.toLower))

/-- `_char_ngrams` from `retrievers.py`: overlapping character n-grams of
the normalised text; shorter-than-`n` text degrades to the whole string,
empty text to no grams. -/
def charNgrams (n : Nat) (text : String) : List String :=
  let s := normalizeText text
  if s.length < n then (if s.isEmpty then [] else [String.mk s])
  else (List.range (s.length - n + 1)).map (fun i => String.mk ((s.drop i).take n))

section Field

variable {K : Type} [LinearOrderedField K]

/-- The n-gram weight map `{g : (1 + log tf) * idf[g]}` shared by
`VectorRetriever.build` (per document) and `VectorRetriever.search`
(for the query): grams absent from `idf` are skipped. -/
def ngramVector (lg : K → K) (idf : List (String × K))
    (tf : List (String × Nat)) : List (String × K) :=
  tf.filterMap (fun p =>
    (alGet idf p.1).map (fun w => (p.1, (1.0 + lg (p.2 : K)) * w)))

/-- `VectorRetriever` from `retrievers.py`. -/
structure VectorRetriever (K : Type) where
  docs : List Document
  idf : List (String × K)
  doc_vecs : List (String × List (String × K))
  doc_norms : List (String × K)
  ngram_n : Nat

/-- `VectorRetriever.build`.  `lg`/`sq` model `math.log`/`math.sqrt`.
The `stats` argument is accepted and ignored exactly as in the source. -/
def VectorRetriever.build (lg sq : K → K) (docs : List Document)
    (_stats : CorpusStats K) : VectorRetriever K :=
  let n_docs : Nat := max 1 docs.length
  let per_doc_ngrams := docs.foldl
    (fun m d => alSet m d.doc_id (charNgrams 4 (d.title ++ " " ++ d.text))) []
  let df := docs.foldl (fun df d =>
      (dedupFirst ((alGet per_doc_ngrams d.doc_id).getD [])).foldl
        (fun df g => alSet df g ((alGet df g).getD 0 + 1)) df) []
  let idf : List (String × K) := df.map (fun p =>
    (p.1, lg (1.0 + ((n_docs : K) - (p.2 : K) + 0.5) / ((p.2 : K) + 0.5))))
  let vecs := docs.foldl (fun m d =>
      alSet m d.doc_id
        (ngramVector lg idf
          (term_freq ((alGet per_doc_ngrams d.doc_id).getD [])))) []
  let norms := docs.foldl (fun m d =>
      let nv := l2norm sq ((alGet vecs d.doc_id).getD [])
      alSet m d.doc_id (if nv = 0 then 1.0 else nv)) []
  { docs := docs, idf := idf, doc_vecs := vecs, doc_norms := norms,
    ngram_n := 4 }

/-- The query-side n-gram vector built at the top of
`VectorRetriever.search`. -/
def VectorRetriever.queryVec (lg : K → K) (r : VectorRetriever K)
    (query : String) : List (String × K) :=
  ngramVector lg r.idf (term_freq (charNgrams r.ngram_n query))

/-- The guarded query norm `qn = _l2norm(q) or 1.0` of
`VectorRetriever.search`. -/
def VectorRetriever.queryNorm (lg sq : K → K) (r : VectorRetriever K)
    (query : String) : K :=
  let qn0 := l2norm sq (r.queryVec lg query)
  if qn0 = 0 then 1.0 else qn0

/-- The cosine-similarity score list of `VectorRetriever.search`, one entry
per document of `r.docs` in order. -/
def VectorRetriever.scoresFor (lg sq : K → K) (r : VectorRetriever K)
    (query : String) : List K :=
  let q := r.queryVec lg query
  let qn := r.queryNorm lg sq query
  r.docs.map (fun d =>
    dotp q ((alGet r.doc_vecs d.doc_id).getD [])
      / (qn * ((alGet r.doc_norms d.doc_id).getD 1.0)))

/-- `VectorRetriever.search`: score every document, then `stable_topk`. -/
def VectorRetriever.search (lg sq : K → K) (r : VectorRetriever K)
    (query : String) (k : Nat) : List (RetrievalResult K) :=
  let scores := r.scoresFor lg sq query
  (stable_topk scores k).map (fun i =>
    ⟨r.docs.getD i ⟨"", "", ""⟩, scores.getD i 0⟩)

/-- `KeywordRetriever` from `retrievers.py` (`k1`, `b` are the dataclass
constants `1.5` and `0.75`, inlined below). -/
structure KeywordRetriever (K : Type) where
  docs : List Document
  stats : CorpusStats K
  doc_tfs : List (String × List (String × Nat))

/-- `KeywordRetriever.build`: per-document token frequency maps. -/
def KeywordRetriever.build (docs : List Document) (stats : CorpusStats K) :
    KeywordRetriever K :=
  { docs := docs
    stats := stats
    doc_tfs := docs.foldl (fun m d =>
      alSet m d.doc_id (term_freq (tokenize (d.title ++ " " ++ d.text)))) [] }

/-- The BM25 accumulation for one document inside
`KeywordRetriever.search` (`k1 = 1.5`, `b = 0.75`). -/
def KeywordRetriever.scoreDoc (r : KeywordRetriever K)
    (q_tf : List (String × Nat)) (d : Document) : K :=
  let tf := (alGet r.doc_tfs d.doc_id).getD []
  let dl := (alGet r.stats.doc_len d.doc_id).getD 0
  let avg := if r.stats.avg_dl = 0 then 1.0 else r.stats.avg_dl
  let denom_norm := 1.5 * (1.0 - 0.75 + 0.75 * ((dl : K) / avg))
  q_tf.foldl (fun s p =>
    match alGet r.stats.idf p.1 with
    | none => s
    | some w =>
      let f := (alGet tf p.1).getD 0
      if f ≤ 0 then s
      else s + w * ((f : K) * (1.5 + 1.0)) / ((f : K) + denom_norm)) 0

/-- The BM25 score list of `KeywordRetriever.search`, one entry per
document of `r.docs` in order. -/
def KeywordRetriever.scoresFor (r : KeywordRetriever K) (query : String) :
    List K :=
  r.docs.map (r.scoreDoc (term_freq (tokenize query)))

/-- `KeywordRetriever.search`: score every document, then `stable_topk`. -/
def KeywordRetriever.search (r : KeywordRetriever K) (query : String)
    (k : Nat) : List (RetrievalResult K) :=
  let scores := r.scoresFor query
  (stable_topk scores k).map (fun i =>
    ⟨r.docs.getD i ⟨"", "", ""⟩, scores.getD i 0⟩)

/-- The BM25 contribution of one distinct query token, as the claim states
it: `idf[t] * (f*(k1+1)) / (f + k1*(1 - b + b*dl/avg_dl))` with `k1 = 1.5`,
`b = 0.75`, `f` the token's frequency in the document and `dl` the
document's token count; tokens absent from the corpus vocabulary (the `idf`
keys) and tokens not occurring in the document contribute zero. -/
def bm25SpecTerm (idf : List (String × K)) (avg_dl : K)
    (docToks : List String) (t : String) : K :=
  match alGet idf t with
  | none => 0
  | some w =>
    let f := docToks.count t
    if f = 0 then 0
    else w * ((f : K) * (1.5 + 1.0))
      / ((f : K) + 1.5 * (1.0 - 0.75 + 0.75 * ((docToks.length : K) / avg_dl)))

/-- The claim's BM25 document score: the sum of `bm25SpecTerm` over the
distinct tokens of the query. -/
def bm25SpecScore (idf : List (String × K)) (avg_dl : K)
    (docToks : List String) (query : String) : K :=
  ((tokenize query).dedup.map (bm25SpecTerm idf avg_dl docToks)).sum

/-- The ranked-output contract shared by `KeywordRetriever.search` and
`VectorRetriever.search`: the result is exactly the stable top-k over the
score list, has at most `k` entries, the selected indices are valid corpus
positions sorted by strictly descending score with equal scores ordered by
ascending corpus index, and the returned scores are non-increasing. -/
def topkSpecHolds (docs : List Document) (scores : List K)
    (res : List (RetrievalResult K)) (k : Nat) : Prop :=
  res = (stable_topk scores k).map (fun i =>
      ⟨docs.getD i ⟨"", "", ""⟩, scores.getD i 0⟩)
  ∧ res.length ≤ k
  ∧ (stable_topk scores k).Pairwise (fun i j =>
      scores.getD i 0 > scores.getD j 0
      ∨ (scores.getD i 0 = scores.getD j 0 ∧ i < j))
  ∧ (∀ i ∈ stable_topk scores k, i < docs.length)
  ∧ res.Pairwise (fun a b => b.score ≤ a.score)

end Field

/-- Modelled from the spec: `HybridRetriever` is imported from
`retrievers` by `run.py` and `evaluate.py` and constructed as
`HybridRetriever(docs=docs, vector=vec, keyword=key)`, but its definition
is missing from the sources under `src/`.  Fields follow the call sites. -/
structure HybridRetriever (K : Type) where
  docs : List Document
  vector : VectorRetriever K
  keyword : KeywordRetriever K

section Field

variable {K : Type} [LinearOrderedField K]

/-- Modelled from the spec (section 4.5), the definition being missing from
`src/`: request a widened pool (`2·k`) from both engines, normalise each
engine's scores to `[0, 1]` by dividing by the pool's maximum score
(guarding a zero maximum), sum the normalised scores over the union of the
pools (a document found by only one engine keeps its single-engine score),
and apply the same stable top-`k` rule as the other retrievers
(descending combined score, ties by ascending original corpus index). -/
def HybridRetriever.search (lg sq : K → K) (h : HybridRetriever K)
    (query : String) (k : Nat) : List (RetrievalResult K) :=
  let kw := h.keyword.search query (2 * k)
  let ve := h.vector.search lg sq query (2 * k)
  let km := (kw.map (fun r => r.score)).foldr max 0
  let vm := (ve.map (fun r => r.score)).foldr max 0
  let ids := dedupFirst
    (kw.map (fun r => r.doc.doc_id) ++ ve.map (fun r => r.doc.doc_id))
  let combined := ids.map (fun id =>
    let ks := (kw.find? (fun r => r.doc.doc_id == id)).map
      (fun r => if km = 0 then r.score else r.score / km)
    let vs := (ve.find? (fun r => r.doc.doc_id == id)).map
      (fun r => if vm = 0 then r.score else r.score / vm)
    (id, ks.getD 0 + vs.getD 0, h.docs.findIdx (fun d => d.doc_id == id)))
  let ranked := combined.mergeSort (fun a b =>
    decide (a.2.1 > b.2.1 ∨ (a.2.1 = b.2.1 ∧ a.2.2 ≤ b.2.2)))
  (ranked.take k).map (fun t => ⟨h.docs.getD t.2.2 ⟨"", "", ""⟩, t.2.1⟩)

end Field

/-! ## `telemetry.py` -/

/-- The store implementation chosen by `telemetry_from_env`, by its
constructor arguments (`SQLiteTelemetry(path)`,
`LakebasePostgresTelemetry(dsn, runs_table, state_table)`,
`DeltaTelemetry(runs_table, state_table)`). -/
inductive TelemetryBackend where
  | sqlite (path : String)
  | lakebase (dsn : String) (runs_table : String) (state_table : String)
  | delta (runs_table : String) (state_table : String)
deriving DecidableEq, Repr

/-- Python `s.strip().lower()` on the backend selector string. -/
def stripLower (s : String) : String :=
  String.mk ((stripEnds s.data).map Char.toLower)

/-- `telemetry_from_env`, with the process environment passed explicitly as
a partial map.  A `RuntimeError` raised at construction time is modelled by
`Except.error`; Python's `if not dsn` treats both a missing and an empty
`BVS_LAKEBASE_DSN` as absent. -/
def telemetry_from_env (env : String → Option String)
    (sqlite_path : Option String) (default_sqlite_path : String) :
    Except String TelemetryBackend :=
  let backend := stripLower ((env "BVS_TELEMETRY").getD "sqlite")
  if backend = "lakebase" then
    match env "BVS_LAKEBASE_DSN" with
    | none => Except.error "BVS_TELEMETRY=lakebase requires BVS_LAKEBASE_DSN"
    | some dsn =>
      if dsn = "" then
        Except.error "BVS_TELEMETRY=lakebase requires BVS_LAKEBASE_DSN"
      else
        Except.ok (TelemetryBackend.lakebase dsn
          ((env "BVS_LAKEBASE_RUNS_TABLE").getD "beyond_vector_search_runs")
          ((env "BVS_LAKEBASE_STATE_TABLE").getD
            "beyond_vector_search_router_state"))
  else if backend = "delta" then
    Except.ok (TelemetryBackend.delta
      ((env "BVS_DELTA_RUNS_TABLE").getD
        "main.default.beyond_vector_search_runs")
      ((env "BVS_DELTA_STATE_TABLE").getD
        "main.default.beyond_vector_search_router_state"))
  else Except.ok (TelemetryBackend.sqlite
    (sqlite_path.getD default_sqlite_path))

/-! ## Helper lemmas -/

section AlLemmas

theorem alGet_alSet {V : Type} (l : List (String × V)) (key : String)
    (v : V) (key2 : String) :
    alGet (alSet l key v) key2 = if key = key2 then some v else alGet l key2 := by
  induction l with
  | nil =>
    by_cases h : key = key2 <;> simp [alSet, alGet, h]
  | cons hd tl ih =>
    obtain ⟨k, w⟩ := hd
    by_cases h1 : k = key
    · subst h1
      by_cases h2 : k = key2 <;> simp [alSet, alGet, h2]
    · by_cases h2 : k = key2
      · subst h2
        have : ¬ key = k := fun h => h1 h.symm
        simp [alSet, alGet, h1, this]
      · simp [alSet, alGet, h1, h2, ih]

theorem alGet_eq_none_iff {V : Type} (l : List (String × V)) (key : String) :
    alGet l key = none ↔ key ∉ l.map Prod.fst := by
  induction l with
  | nil => simp [alGet]
  | cons hd tl ih =>
    obtain ⟨k, w⟩ := hd
    by_cases h : k = key
    · subst h
      simp [alGet]
    · have hne : ¬ (key = k) := fun hk => h hk.symm
      simp [alGet, h, hne, ih]

theorem keys_alSet {V : Type} (l : List (String × V)) (key : String)
    (v : V) :
    (alSet l key v).map Prod.fst
      = if key ∈ l.map Prod.fst then l.map Prod.fst
        else l.map Prod.fst ++ [key] := by
  induction l with
  | nil => simp [alSet]
  | cons hd tl ih =>
    obtain ⟨k, w⟩ := hd
    by_cases h : k = key
    · subst h
      simp [alSet]
    · have hne : ¬ key = k := fun hk => h hk.symm
      by_cases hmem : key ∈ tl.map Prod.fst <;>
        simp [alSet, h, hne, hmem, ih]

theorem keys_alSet_nodup {V : Type} (l : List (String × V)) (key : String)
    (v : V) (hno : (l.map Prod.fst).Nodup) :
    ((alSet l key v).map Prod.fst).Nodup := by
  rw [keys_alSet]
  by_cases hmem : key ∈ l.map Prod.fst
  · simpa [hmem] using hno
  · simpa [hmem, List.nodup_append] using hno

theorem alGet_term_freq_aux (l : List String)
    (acc : List (String × Nat)) (t : String) :
    alGet (l.foldl (fun tf s => alSet tf s ((alGet tf s).getD 0 + 1)) acc) t
      = if l.count t = 0 then alGet acc t
        else some ((alGet acc t).getD 0 + l.count t) := by
  induction l generalizing acc with
  | nil => simp
  | cons hd tl ih =>
    rw [List.foldl_cons, ih, alGet_alSet]
    by_cases h : hd = t
    · subst h
      by_cases hc : tl.count hd = 0 <;>
        simp [List.count_cons, hc] <;> omega
    · have : ¬ (t = hd) := fun hh => h hh.symm
      by_cases hc : tl.count t = 0 <;>
        simp [List.count_cons, h, this, hc]

theorem alGet_term_freq (l : List String) (t : String) :
    alGet (term_freq l) t
      = if l.count t = 0 then none else some (l.count t) := by
  rw [term_freq, alGet_term_freq_aux]
  by_cases h : l.count t = 0 <;> simp [alGet, h]

theorem alGet_term_freq_getD (l : List String) (t : String) :
    (alGet (term_freq l) t).getD 0 = l.count t := by
  rw [alGet_term_freq]
  by_cases h : l.count t = 0 <;> simp [h]

theorem term_freq_keys_mem (l : List String) (t : String) :
    t ∈ (term_freq l).map Prod.fst ↔ t ∈ l := by
  constructor
  · intro h
    by_contra hmem
    have hc : l.count t = 0 := List.count_eq_zero.mpr hmem
    have := (alGet_eq_none_iff (term_freq l) t).mpr
    have hnone : alGet (term_freq l) t = none := by
      rw [alGet_term_freq, if_pos hc]
    exact ((alGet_eq_none_iff (term_freq l) t).mp hnone) h
  · intro h
    by_contra hmem
    have hnone : alGet (term_freq l) t = none :=
      (alGet_eq_none_iff (term_freq l) t).mpr hmem
    rw [alGet_term_freq] at hnone
    have hc : l.count t ≠ 0 := fun h0 => by
      rw [List.count_eq_zero] at h0
      exact h0 h
    rw [if_neg hc] at hnone
    exact Option.noConfusion hnone

theorem term_freq_keys_nodup_aux (l : List String)
    (acc : List (String × Nat)) (hno : (acc.map Prod.fst).Nodup) :
    ((l.foldl (fun tf s => alSet tf s ((alGet tf s).getD 0 + 1)) acc).map
      Prod.fst).Nodup := by
  induction l generalizing acc with
  | nil => exact hno
  | cons hd tl ih =>
    rw [List.foldl_cons]
    exact ih _ (keys_alSet_nodup _ _ _ hno)

theorem term_freq_keys_nodup (l : List String) :
    ((term_freq l).map Prod.fst).Nodup :=
  term_freq_keys_nodup_aux l [] (by simp)

theorem term_freq_keys_perm_dedup (l : List String) :
    List.Perm ((term_freq l).map Prod.fst) l.dedup := by
  rw [List.perm_ext_iff_of_nodup (term_freq_keys_nodup l) (List.nodup_dedup l)]
  intro t
  rw [term_freq_keys_mem, List.mem_dedup]

theorem dedupFirst_sub_aux (l acc : List String) (t : String)
    (h : t ∈ l.foldl
      (fun acc x => if acc.contains x then acc else acc ++ [x]) acc) :
    t ∈ acc ∨ t ∈ l := by
  induction l generalizing acc with
  | nil => exact Or.inl h
  | cons hd tl ih =>
    rw [List.foldl_cons] at h
    rcases ih _ h with h1 | h1
    · by_cases hc : acc.contains hd
      · rw [if_pos hc] at h1
        exact Or.inl h1
      · rw [if_neg hc] at h1
        rcases List.mem_append.mp h1 with h2 | h2
        · exact Or.inl h2
        · simp only [List.mem_singleton] at h2
          exact Or.inr (h2 ▸ List.mem_cons_self hd tl)
    · exact Or.inr (List.mem_cons_of_mem hd h1)

theorem dedupFirst_subset (l : List String) (t : String)
    (h : t ∈ dedupFirst l) : t ∈ l := by
  rcases dedupFirst_sub_aux l [] t h with h1 | h1
  · cases h1
  · exact h1

theorem corpusAccum_cons (d : Document) (tl : List Document)
    (acc : List (String × Nat) × List (String × Nat) × Nat) :
    corpusAccum (d :: tl) acc
      = corpusAccum tl
        ((dedupFirst (tokenize (d.title ++ " " ++ d.text))).foldl
            (fun df t => alSet df t ((alGet df t).getD 0 + 1)) acc.1,
          alSet acc.2.1 d.doc_id (tokenize (d.title ++ " " ++ d.text)).length,
          acc.2.2 + (tokenize (d.title ++ " " ++ d.text)).length) := rfl

theorem corpusAccum_doclen_not_mem (docs : List Document)
    (acc : List (String × Nat) × List (String × Nat) × Nat) (key : String)
    (hkey : key ∉ docs.map Document.doc_id) :
    alGet (corpusAccum docs acc).2.1 key = alGet acc.2.1 key := by
  induction docs generalizing acc with
  | nil => rfl
  | cons hd tl ih =>
    rw [corpusAccum_cons, ih _ (fun hmem => hkey (by simp [hmem]))]
    simp only
    rw [alGet_alSet, if_neg (fun heq => hkey (by simp [heq]))]

theorem corpusAccum_doclen_lookup (docs : List Document)
    (acc : List (String × Nat) × List (String × Nat) × Nat) (d : Document)
    (hno : (docs.map Document.doc_id).Nodup) (hd : d ∈ docs) :
    alGet (corpusAccum docs acc).2.1 d.doc_id
      = some (tokenize (d.title ++ " " ++ d.text)).length := by
  induction docs generalizing acc with
  | nil => cases hd
  | cons hd1 tl ih =>
    rw [corpusAccum_cons]
    rcases List.mem_cons.mp hd with rfl | hdtl
    · have hkey : d.doc_id ∉ tl.map Document.doc_id := by
        simpa using (List.nodup_cons.mp hno).1
      rw [corpusAccum_doclen_not_mem tl _ _ hkey]
      simp only
      rw [alGet_alSet, if_pos rfl]
    · exact ih _ (List.nodup_cons.mp hno).2 hdtl

theorem corpusAccum_total (docs : List Document)
    (acc : List (String × Nat) × List (String × Nat) × Nat) :
    (corpusAccum docs acc).2.2 = acc.2.2
      + (docs.map
          (fun d => (tokenize (d.title ++ " " ++ d.text)).length)).sum := by
  induction docs generalizing acc with
  | nil => simp [corpusAccum]
  | cons hd tl ih =>
    rw [corpusAccum_cons, ih]
    simp only [List.map_cons, List.sum_cons]
    omega

theorem dfFold_keys_mem (grams : List String) (df : List (String × Nat))
    (t : String)
    (h : t ∈ (grams.foldl
      (fun df g => alSet df g ((alGet df g).getD 0 + 1)) df).map Prod.fst) :
    t ∈ df.map Prod.fst ∨ t ∈ grams := by
  induction grams generalizing df with
  | nil => exact Or.inl h
  | cons g gl ih =>
    rw [List.foldl_cons] at h
    rcases ih _ h with h1 | h1
    · rw [keys_alSet] at h1
      by_cases hm : g ∈ df.map Prod.fst
      · rw [if_pos hm] at h1
        exact Or.inl h1
      · rw [if_neg hm] at h1
        rcases List.mem_append.mp h1 with h2 | h2
        · exact Or.inl h2
        · simp only [List.mem_singleton] at h2
          exact Or.inr (h2 ▸ List.mem_cons_self g gl)
    · exact Or.inr (List.mem_cons_of_mem g h1)

theorem corpusAccum_df_keys (docs : List Document)
    (acc : List (String × Nat) × List (String × Nat) × Nat) (t : String)
    (h : t ∈ (corpusAccum docs acc).1.map Prod.fst) :
    t ∈ acc.1.map Prod.fst
    ∨ ∃ d ∈ docs, t ∈ dedupFirst (tokenize (d.title ++ " " ++ d.text)) := by
  induction docs generalizing acc with
  | nil => exact Or.inl h
  | cons hd tl ih =>
    rw [corpusAccum_cons] at h
    rcases ih _ h with h1 | h1
    · rcases dfFold_keys_mem _ _ _ h1 with h2 | h2
      · exact Or.inl h2
      · exact Or.inr ⟨hd, by simp, h2⟩
    · obtain ⟨d, hdm, hdt⟩ := h1
      exact Or.inr ⟨d, by simp [hdm], hdt⟩

theorem alGet_foldl_setById_not_mem {V : Type} (docs : List Document)
    (f : Document → V) (m : List (String × V)) (key : String)
    (hkey : key ∉ docs.map Document.doc_id) :
    alGet (docs.foldl (fun m x => alSet m x.doc_id (f x)) m) key
      = alGet m key := by
  induction docs generalizing m with
  | nil => rfl
  | cons hd tl ih =>
    rw [List.foldl_cons, ih _ (fun hmem => hkey (by simp [hmem]))]
    rw [alGet_alSet, if_neg (fun heq => hkey (by simp [heq]))]

theorem alGet_foldl_setById {V : Type} (docs : List Document)
    (f : Document → V) (m : List (String × V)) (d : Document)
    (hno : (docs.map Document.doc_id).Nodup) (hd : d ∈ docs) :
    alGet (docs.foldl (fun m x => alSet m x.doc_id (f x)) m) d.doc_id
      = some (f d) := by
  induction docs generalizing m with
  | nil => cases hd
  | cons hd1 tl ih =>
    rw [List.foldl_cons]
    rcases List.mem_cons.mp hd with rfl | hdtl
    · have hkey : d.doc_id ∉ tl.map Document.doc_id := by
        simpa using (List.nodup_cons.mp hno).1
      rw [alGet_foldl_setById_not_mem tl f _ _ hkey]
      rw [alGet_alSet, if_pos rfl]
    · exact ih _ (List.nodup_cons.mp hno).2 hdtl

theorem alGet_map_keyed {V W : Type} (l : List (String × V))
    (g : String × V → W) (key : String) :
    alGet (l.map (fun p => (p.1, g p))) key
      = (alGet l key).map (fun v => g (key, v)) := by
  induction l with
  | nil => rfl
  | cons hd tl ih =>
    obtain ⟨k, v⟩ := hd
    by_cases h : k = key
    · subst h
      simp [alGet]
    · simp [alGet, h, ih]

end AlLemmas

section Lemmas

variable {K : Type} [LinearOrderedField K]

theorem weightTotal_addWinner (st : RouterState K) (w : Strategy) (d : K) :
    weightTotal (addWinner st w d) = weightTotal st + d := by
  cases w <;> simp [weightTotal, addWinner] <;> ring

theorem weightTotal_subLoser (st : RouterState K) (l : Strategy) (d : K) :
    weightTotal (subLoser st l d) = weightTotal st - d := by
  cases l <;> simp [weightTotal, subLoser] <;> ring

theorem lr_addWinner (st : RouterState K) (w : Strategy) (d : K) :
    (addWinner st w d).lr = st.lr := by
  cases w <;> rfl

theorem lr_subLoser (st : RouterState K) (l : Strategy) (d : K) :
    (subLoser st l d).lr = st.lr := by
  cases l <;> rfl

theorem weightTotal_foldl_subLoser (losers : List Strategy)
    (st : RouterState K) (d : K) :
    weightTotal (losers.foldl (fun acc s => subLoser acc s d) st)
      = weightTotal st - (losers.length : K) * d := by
  induction losers generalizing st with
  | nil => simp
  | cons hd tl ih =>
    simp only [List.foldl_cons, List.length_cons, ih, weightTotal_subLoser]
    push_cast
    ring

theorem foldl_max_all_eq (l : List K) (a : K) (h : ∀ x ∈ l, x = a) :
    l.foldl max a = a := by
  induction l with
  | nil => rfl
  | cons hd tl ih =>
    have hhd : hd = a := h hd (by simp)
    simp only [List.foldl_cons, hhd, max_self]
    exact ih (fun x hx => h x (by simp [hx]))

theorem foldl_min_all_eq (l : List K) (a : K) (h : ∀ x ∈ l, x = a) :
    l.foldl min a = a := by
  induction l with
  | nil => rfl
  | cons hd tl ih =>
    have hhd : hd = a := h hd (by simp)
    simp only [List.foldl_cons, hhd, min_self]
    exact ih (fun x hx => h x (by simp [hx]))

theorem scoreCmp_true_iff (x y : Strategy × K) :
    scoreCmp x y = true ↔
      y.2 < x.2 ∨ (x.2 = y.2
        ∧ lexLe (strategyName x.1).data (strategyName y.1).data = true) := by
  rw [scoreCmp]
  split_ifs with h1 h2 <;> simp_all

theorem lexLe_name_total (a b : Strategy) :
    lexLe (strategyName a).data (strategyName b).data = true
    ∨ lexLe (strategyName b).data (strategyName a).data = true := by
  cases a <;> cases b <;> decide

theorem scoreCmp_total (x y : Strategy × K) :
    (scoreCmp x y || scoreCmp y x) = true := by
  rw [Bool.or_eq_true, scoreCmp_true_iff, scoreCmp_true_iff]
  rcases lt_trichotomy x.2 y.2 with h | h | h
  · exact Or.inr (Or.inl h)
  · rcases lexLe_name_total x.1 y.1 with hl | hl
    · exact Or.inl (Or.inr ⟨h, hl⟩)
    · exact Or.inr (Or.inr ⟨h.symm, hl⟩)
  · exact Or.inl (Or.inl h)

theorem lexLe_name_trans (a b c : Strategy) :
    lexLe (strategyName a).data (strategyName b).data = true →
    lexLe (strategyName b).data (strategyName c).data = true →
    lexLe (strategyName a).data (strategyName c).data = true := by
  cases a <;> cases b <;> cases c <;> decide

theorem scoreCmp_trans (x y z : Strategy × K) :
    scoreCmp x y = true → scoreCmp y z = true → scoreCmp x z = true := by
  rw [scoreCmp_true_iff, scoreCmp_true_iff, scoreCmp_true_iff]
  rintro (h1 | ⟨h1, hl1⟩) (h2 | ⟨h2, hl2⟩)
  · exact Or.inl (h2.trans h1)
  · exact Or.inl (h2 ▸ h1)
  · exact Or.inl (h1 ▸ h2)
  · exact Or.inr ⟨h1.trans h2, lexLe_name_trans _ _ _ hl1 hl2⟩

theorem head_mergeSort_strict_max (l : List (Strategy × K))
    (x dflt : Strategy × K) (hx : x ∈ l)
    (hmax : ∀ p ∈ l, p.1 ≠ x.1 → p.2 < x.2) :
    ((l.mergeSort scoreCmp).headD dflt).1 = x.1 := by
  have hperm := List.mergeSort_perm l scoreCmp
  have hsorted := List.sorted_mergeSort
    (fun a b c => scoreCmp_trans a b c) (fun a b => scoreCmp_total a b) l
  rcases hms : l.mergeSort scoreCmp with _ | ⟨hd, tl⟩
  · exact absurd (hperm.symm.mem_iff.mp hx) (by simp [hms])
  · rw [List.headD_cons]
    by_contra hne
    have hhd : hd ∈ l := hperm.mem_iff.mp (by simp [hms])
    have hlt : hd.2 < x.2 := hmax hd hhd hne
    have hxms : x ∈ hd :: tl := hms ▸ (List.mem_mergeSort).mpr hx
    rcases List.mem_cons.mp hxms with heq | hxtl
    · exact hne (heq ▸ rfl)
    · rw [hms] at hsorted
      have hcmp : scoreCmp hd x = true :=
        (List.pairwise_cons.mp hsorted).1 x hxtl
      rcases (scoreCmp_true_iff hd x).mp hcmp with h | ⟨h, _⟩
      · exact absurd hlt (not_lt.mpr h.le)
      · exact absurd hlt (not_lt.mpr h.ge)

theorem init_le_foldl_max (l : List K) (a : K) : a ≤ l.foldl max a := by
  induction l generalizing a with
  | nil => exact le_refl a
  | cons hd tl ih =>
    exact le_trans (le_max_left a hd) (ih (max a hd))

theorem le_foldl_max (l : List K) (a x : K) (hx : x = a ∨ x ∈ l) :
    x ≤ l.foldl max a := by
  induction l generalizing a with
  | nil => simp at hx; simp [hx]
  | cons hd tl ih =>
    simp only [List.foldl_cons]
    rcases hx with rfl | h
    · exact le_trans (le_max_left x hd) (init_le_foldl_max tl _)
    · rcases List.mem_cons.mp h with rfl | h
      · exact le_trans (le_max_right a x) (init_le_foldl_max tl _)
      · exact ih _ (Or.inr h)

theorem foldl_min_le_init (l : List K) (a : K) : l.foldl min a ≤ a := by
  induction l generalizing a with
  | nil => exact le_refl a
  | cons hd tl ih =>
    exact le_trans (ih (min a hd)) (min_le_left a hd)

theorem foldl_min_le (l : List K) (a x : K) (hx : x = a ∨ x ∈ l) :
    l.foldl min a ≤ x := by
  induction l generalizing a with
  | nil => simp at hx; simp [hx]
  | cons hd tl ih =>
    simp only [List.foldl_cons]
    rcases hx with rfl | h
    · exact le_trans (foldl_min_le_init tl _) (min_le_left x hd)
    · rcases List.mem_cons.mp h with rfl | h
      · exact le_trans (foldl_min_le_init tl _) (min_le_right a x)
      · exact ih _ (Or.inr h)

theorem foldl_subLoser_weights (losers : List Strategy)
    (st : RouterState K) (d : K) :
    (losers.foldl (fun acc s => subLoser acc s d) st).weight_vector
        = st.weight_vector - (losers.count Strategy.vector : K) * d
    ∧ (losers.foldl (fun acc s => subLoser acc s d) st).weight_keyword
        = st.weight_keyword - (losers.count Strategy.keyword : K) * d
    ∧ (losers.foldl (fun acc s => subLoser acc s d) st).weight_hybrid
        = st.weight_hybrid - (losers.count Strategy.hybrid : K) * d := by
  induction losers generalizing st with
  | nil => simp
  | cons hd tl ih =>
    obtain ⟨ihv, ihk, ihh⟩ := ih (subLoser st hd d)
    refine ⟨?_, ?_, ?_⟩ <;>
      simp only [List.foldl_cons, List.count_cons, ihv, ihk, ihh] <;>
      cases hd <;>
      simp [subLoser] <;> ring

theorem build_corpus_stats_avg_pos (lg : K → K) (docs : List Document)
    (th : Nat) (t : String) (w : K)
    (h : alGet (build_corpus_stats lg docs th).idf t = some w) :
    0 < (build_corpus_stats lg docs th).avg_dl := by
  simp only [build_corpus_stats] at h ⊢
  rw [alGet_map_keyed] at h
  obtain ⟨c, hc, -⟩ := Option.map_eq_some'.mp h
  have hmem : t ∈ (corpusAccum docs ([], [], 0)).1.map Prod.fst := by
    by_contra hmem
    rw [← alGet_eq_none_iff] at hmem
    rw [hmem] at hc
    exact Option.noConfusion hc
  rcases corpusAccum_df_keys docs _ t hmem with h1 | h1
  · simp at h1
  obtain ⟨d, hdm, hdt⟩ := h1
  have htoks : t ∈ tokenize (d.title ++ " " ++ d.text) :=
    dedupFirst_subset _ t hdt
  have hlen1 : 1 ≤ (tokenize (d.title ++ " " ++ d.text)).length :=
    List.length_pos.mpr (List.ne_nil_of_mem htoks)
  have htot : 1 ≤ (corpusAccum docs ([], [], 0)).2.2 := by
    rw [corpusAccum_total]
    have hle := List.single_le_sum
      (l := docs.map (fun d => (tokenize (d.title ++ " " ++ d.text)).length))
      (fun x _ => Nat.zero_le x)
      ((tokenize (d.title ++ " " ++ d.text)).length)
      (List.mem_map_of_mem _ hdm)
    omega
  have hnum : (0 : K) < ((corpusAccum docs ([], [], 0)).2.2 : K) := by
    exact_mod_cast Nat.lt_of_lt_of_le Nat.zero_lt_one htot
  have hden : (0 : K) < ((max 1 docs.length : Nat) : K) := by
    have : 0 < max 1 docs.length := Nat.lt_of_lt_of_le Nat.zero_lt_one
      (le_max_left 1 docs.length)
    exact_mod_cast this
  exact div_pos hnum hden

theorem scoreDoc_foldl_eq_sum (idf : List (String × K))
    (tf : List (String × Nat)) (dn : K) (l : List (String × Nat)) (a : K) :
    l.foldl (fun s p =>
      match alGet idf p.1 with
      | none => s
      | some w =>
        let f := (alGet tf p.1).getD 0
        if f ≤ 0 then s
        else s + w * ((f : K) * (1.5 + 1.0)) / ((f : K) + dn)) a
    = a + ((l.map Prod.fst).map (fun t =>
      match alGet idf t with
      | none => (0 : K)
      | some w =>
        let f := (alGet tf t).getD 0
        if f ≤ 0 then 0
        else w * ((f : K) * (1.5 + 1.0)) / ((f : K) + dn))).sum := by
  induction l generalizing a with
  | nil => simp
  | cons hd tl ih =>
    rw [List.foldl_cons, ih]
    rcases halget : alGet idf hd.1 with _ | w
    · simp [halget]
    · simp only [halget, List.map_cons, List.sum_cons]
      by_cases hf : (alGet tf hd.1).getD 0 ≤ 0
      · simp [hf]
      · simp only [hf, if_false]
        ring

theorem topkCmp_trans (scores : List K) (a b c : Nat)
    (h1 : decide (scores.getD a 0 > scores.getD b 0
      ∨ (scores.getD a 0 = scores.getD b 0 ∧ a ≤ b)) = true)
    (h2 : decide (scores.getD b 0 > scores.getD c 0
      ∨ (scores.getD b 0 = scores.getD c 0 ∧ b ≤ c)) = true) :
    decide (scores.getD a 0 > scores.getD c 0
      ∨ (scores.getD a 0 = scores.getD c 0 ∧ a ≤ c)) = true := by
  simp only [decide_eq_true_eq] at *
  rcases h1 with h1 | ⟨h1, h1n⟩ <;> rcases h2 with h2 | ⟨h2, h2n⟩
  · exact Or.inl (h2.trans h1)
  · exact Or.inl (h2 ▸ h1)
  · exact Or.inl (h1 ▸ h2)
  · exact Or.inr ⟨h1.trans h2, h1n.trans h2n⟩

theorem topkCmp_total (scores : List K) (a b : Nat) :
    (decide (scores.getD a 0 > scores.getD b 0
        ∨ (scores.getD a 0 = scores.getD b 0 ∧ a ≤ b))
      || decide (scores.getD b 0 > scores.getD a 0
        ∨ (scores.getD b 0 = scores.getD a 0 ∧ b ≤ a))) = true := by
  simp only [Bool.or_eq_true, decide_eq_true_eq]
  rcases lt_trichotomy (scores.getD a 0) (scores.getD b 0) with h | h | h
  · exact Or.inr (Or.inl h)
  · rcases Nat.le_total a b with hn | hn
    · exact Or.inl (Or.inr ⟨h, hn⟩)
    · exact Or.inr (Or.inr ⟨h.symm, hn⟩)
  · exact Or.inl (Or.inl h)

theorem stable_topk_length_le (scores : List K) (k : Nat) :
    (stable_topk scores k).length ≤ k := by
  rw [stable_topk, List.length_take]
  exact min_le_left k _

theorem stable_topk_mem_lt (scores : List K) (k : Nat) :
    ∀ i ∈ stable_topk scores k, i < scores.length := by
  intro i hi
  rw [stable_topk] at hi
  have hms := (List.take_sublist k _).mem hi
  have hr : i ∈ List.range scores.length :=
    (List.mergeSort_perm (List.range scores.length) _).mem_iff.mp hms
  exact List.mem_range.mp hr

theorem stable_topk_pairwise (scores : List K) (k : Nat) :
    (stable_topk scores k).Pairwise (fun i j =>
      scores.getD i 0 > scores.getD j 0
      ∨ (scores.getD i 0 = scores.getD j 0 ∧ i < j)) := by
  have hsorted := List.sorted_mergeSort
    (topkCmp_trans scores) (topkCmp_total scores)
    (List.range scores.length)
  have hnodup : (List.mergeSort (List.range scores.length)
      (fun i j => decide (scores.getD i 0 > scores.getD j 0
        ∨ (scores.getD i 0 = scores.getD j 0 ∧ i ≤ j)))).Nodup :=
    (List.mergeSort_perm (List.range scores.length) _).symm.nodup
      (List.nodup_range _)
  have hcomb := hsorted.and hnodup
  have hstrict : (List.mergeSort (List.range scores.length) (fun i j =>
      decide (scores.getD i 0 > scores.getD j 0
        ∨ (scores.getD i 0 = scores.getD j 0 ∧ i ≤ j)))).Pairwise (fun i j =>
      scores.getD i 0 > scores.getD j 0
      ∨ (scores.getD i 0 = scores.getD j 0 ∧ i < j)) := by
    refine hcomb.imp ?_
    intro a b hab
    rcases hab with ⟨hle, hne⟩
    rw [decide_eq_true_eq] at hle
    rcases hle with h | ⟨h, hn⟩
    · exact Or.inl h
    · exact Or.inr ⟨h, lt_of_le_of_ne hn hne⟩
  exact List.Pairwise.sublist (List.take_sublist k _) hstrict

theorem topkSpecHolds_map (docs : List Document) (scores : List K) (k : Nat)
    (hlen : scores.length = docs.length) :
    topkSpecHolds docs scores ((stable_topk scores k).map (fun i =>
      ⟨docs.getD i ⟨"", "", ""⟩, scores.getD i 0⟩)) k := by
  refine ⟨rfl, ?_, stable_topk_pairwise scores k, ?_, ?_⟩
  · rw [List.length_map]
    exact stable_topk_length_le scores k
  · intro i hi
    rw [← hlen]
    exact stable_topk_mem_lt scores k i hi
  · refine List.Pairwise.map _ ?_ (stable_topk_pairwise scores k)
    intro a b hab
    rcases hab with h | ⟨h, _⟩
    · exact le_of_lt h
    · exact le_of_eq h.symm

theorem weightTotal_update_branch (st : RouterState K) (w : Strategy)
    (losers : List Strategy) (hne : losers ≠ []) :
    weightTotal (losers.foldl
        (fun acc s => subLoser acc s (st.lr / (losers.length : K)))
        (addWinner st w st.lr))
      = weightTotal st := by
  have hlen : (losers.length : K) ≠ 0 := by
    have : losers.length ≠ 0 := fun h0 => hne (List.length_eq_zero.mp h0)
    exact_mod_cast this
  rw [weightTotal_foldl_subLoser, weightTotal_addWinner]
  field_simp

end Lemmas

/-! ## Claims -/

/-- Claim C10: for every `RouterState s`, `from_json (s.to_json) = s`
(serialisation round trip), and `from_json` applied to a blob missing any
of the four keys fills in the defaults
`weight_vector = weight_keyword = weight_hybrid = 0.0` and `lr = 0.25`. -/
theorem claim_C10_routerstate_json {K : Type} [LinearOrderedField K]
    (st : RouterState K) (blob : List (String × K)) :
    RouterState.from_json st.to_json = st
    ∧ (alGet blob "weight_vector" = none →
        (RouterState.from_json blob).weight_vector = 0.0)
    ∧ (alGet blob "weight_keyword" = none →
        (RouterState.from_json blob).weight_keyword = 0.0)
    ∧ (alGet blob "weight_hybrid" = none →
        (RouterState.from_json blob).weight_hybrid = 0.0)
    ∧ (alGet blob "lr" = none → (RouterState.from_json blob).lr = 0.25) := by
  refine ⟨?_, ?_, ?_, ?_, ?_⟩
  · cases st
    simp [RouterState.to_json, RouterState.from_json, alGet]
  all_goals intro h
  all_goals simp [RouterState.from_json, h]

/-- Witness for C10 at a concrete state and the empty blob. -/
theorem claim_C10_routerstate_json_witness :
    RouterState.from_json (RouterState.to_json
        (⟨1, -2, 3, 0.25⟩ : RouterState ℚ)) = ⟨1, -2, 3, 0.25⟩
    ∧ (RouterState.from_json ([] : List (String × ℚ))).weight_vector = 0.0
    ∧ (RouterState.from_json ([] : List (String × ℚ))).weight_keyword = 0.0
    ∧ (RouterState.from_json ([] : List (String × ℚ))).weight_hybrid = 0.0
    ∧ (RouterState.from_json ([] : List (String × ℚ))).lr = 0.25 := by
  obtain ⟨h1, h2, h3, h4, h5⟩ :=
    claim_C10_routerstate_json (⟨1, -2, 3, 0.25⟩ : RouterState ℚ) []
  exact ⟨h1, h2 rfl, h3 rfl, h4 rfl, h5 rfl⟩

/-- Claim C9: when the lakebase backend is selected but no DSN is provided
(unset or empty, both falsy in Python), `telemetry_from_env` raises at
construction time — before any `log_run`/`get_state`/`set_state` could be
attempted — and with a DSN present it returns the lakebase store without
error. -/
theorem claim_C9_lakebase_requires_dsn (env : String → Option String)
    (sqlite_path : Option String) (default_sqlite_path : String)
    (hsel : stripLower ((env "BVS_TELEMETRY").getD "sqlite") = "lakebase") :
    ((env "BVS_LAKEBASE_DSN" = none ∨ env "BVS_LAKEBASE_DSN" = some "") →
      ∃ msg, telemetry_from_env env sqlite_path default_sqlite_path
          = Except.error msg)
    ∧ (∀ dsn, env "BVS_LAKEBASE_DSN" = some dsn → dsn ≠ "" →
      telemetry_from_env env sqlite_path default_sqlite_path
        = Except.ok (TelemetryBackend.lakebase dsn
          ((env "BVS_LAKEBASE_RUNS_TABLE").getD "beyond_vector_search_runs")
          ((env "BVS_LAKEBASE_STATE_TABLE").getD
            "beyond_vector_search_router_state"))) := by
  constructor
  · intro hdsn
    refine ⟨"BVS_TELEMETRY=lakebase requires BVS_LAKEBASE_DSN", ?_⟩
    rcases hdsn with h | h <;> simp [telemetry_from_env, hsel, h]
  · intro dsn hdsn hne
    simp [telemetry_from_env, hsel, hdsn, hne]

/-- Witness for C9: a concrete environment selecting lakebase without a
DSN errors; adding a DSN yields the lakebase store. -/
theorem claim_C9_lakebase_requires_dsn_witness :
    (∃ msg, telemetry_from_env
        (fun k => if k = "BVS_TELEMETRY" then some "lakebase" else none)
        none "runs/bvs.sqlite" = Except.error msg)
    ∧ telemetry_from_env
        (fun k => if k = "BVS_TELEMETRY" then some "lakebase"
          else if k = "BVS_LAKEBASE_DSN" then some "postgres:mydb" else none)
        none "runs/bvs.sqlite"
      = Except.ok (TelemetryBackend.lakebase "postgres:mydb"
          "beyond_vector_search_runs" "beyond_vector_search_router_state") := by
  constructor
  · exact (claim_C9_lakebase_requires_dsn
      (fun k => if k = "BVS_TELEMETRY" then some "lakebase" else none)
      none "runs/bvs.sqlite" (by decide)).1 (Or.inl (by decide))
  · exact (claim_C9_lakebase_requires_dsn
      (fun k => if k = "BVS_TELEMETRY" then some "lakebase"
        else if k = "BVS_LAKEBASE_DSN" then some "postgres:mydb" else none)
      none "runs/bvs.sqlite" (by decide)).2 "postgres:mydb" (by decide)
      (by decide)

/-- Claim C5: for every `RouterState` and every scores mapping over the
three strategies, `update_from_scores` conserves the total weight mass
`weight_vector + weight_keyword + weight_hybrid`: the winner gains `lr`
while each of the `n` losers loses `lr / n`. -/
theorem claim_C5_update_conserves_weight_mass {K : Type}
    [LinearOrderedField K] (st : RouterState K)
    (scores : List (Strategy × K)) :
    weightTotal (update_from_scores st scores) = weightTotal st := by
  rcases scores with _ | ⟨⟨s0, v0⟩, rest⟩
  · rfl
  · rw [update_from_scores, update_from_scores_full]
    simp only
    split
    · rfl
    split
    · rfl
    rename_i hemp
    refine weightTotal_update_branch st _ _ (fun h0 => hemp ?_)
    rw [h0]
    rfl

/-- Claim C6: `update_from_scores` called with an empty scores mapping, or
with a mapping in which all score values are equal, returns the input
`RouterState` unchanged and persists nothing (`save_state` unreached). -/
theorem claim_C6_update_noop {K : Type} [LinearOrderedField K]
    (st : RouterState K) :
    update_from_scores_full st ([] : List (Strategy × K)) = (st, false)
    ∧ ∀ scores : List (Strategy × K),
        (∀ p ∈ scores, ∀ q ∈ scores, p.2 = q.2) →
        update_from_scores_full st scores = (st, false) := by
  refine ⟨rfl, ?_⟩
  intro scores hall
  rcases scores with _ | ⟨⟨s0, v0⟩, rest⟩
  · rfl
  · have hv0 : ∀ x ∈ rest.map Prod.snd, x = v0 := by
      intro x hx
      obtain ⟨p, hp, hpx⟩ := List.mem_map.mp hx
      rw [← hpx]
      exact hall p (by simp [hp]) (s0, v0) (by simp)
    rw [update_from_scores_full]
    simp only
    rw [foldl_max_all_eq _ _ hv0, foldl_min_all_eq _ _ hv0, if_pos rfl]

/-- Claim C7: for every state with `lr > 0` and every scores mapping over
all three strategies in which keyword's score strictly exceeds both others,
`update_from_scores` strictly increases both
`weight_keyword - weight_vector` and `weight_keyword - weight_hybrid`,
each by the same amount `3/2 · lr` per call. -/
theorem claim_C7_keyword_dominance_grows_margin {K : Type}
    [LinearOrderedField K] (st : RouterState K)
    (scores : List (Strategy × K)) (sk : K)
    (hkeys : List.Perm (scores.map Prod.fst)
      [Strategy.vector, Strategy.keyword, Strategy.hybrid])
    (hmem : (Strategy.keyword, sk) ∈ scores)
    (hdom : ∀ p ∈ scores, p.1 ≠ Strategy.keyword → p.2 < sk)
    (hlr : 0 < st.lr) :
    ((update_from_scores st scores).weight_keyword
        - (update_from_scores st scores).weight_vector
      = st.weight_keyword - st.weight_vector + 3 / 2 * st.lr)
    ∧ ((update_from_scores st scores).weight_keyword
        - (update_from_scores st scores).weight_hybrid
      = st.weight_keyword - st.weight_hybrid + 3 / 2 * st.lr)
    ∧ st.weight_keyword - st.weight_vector
      < (update_from_scores st scores).weight_keyword
        - (update_from_scores st scores).weight_vector
    ∧ st.weight_keyword - st.weight_hybrid
      < (update_from_scores st scores).weight_keyword
        - (update_from_scores st scores).weight_hybrid := by
  rcases scores with _ | ⟨⟨s0, v0⟩, rest⟩
  · simpa using hkeys.length_eq
  have hwin : ((((s0, v0) :: rest).mergeSort scoreCmp).headD (s0, v0)).1
      = Strategy.keyword :=
    head_mergeSort_strict_max _ (Strategy.keyword, sk) _ hmem
      (fun p hp hne => hdom p hp hne)
  obtain ⟨pv, hpv, hpvfst⟩ := List.mem_map.mp
    (hkeys.mem_iff.mpr (show Strategy.vector ∈ _ by simp))
  have hvv : pv.2 < sk := hdom pv hpv (by simp [hpvfst])
  have hskmax : sk ≤ (rest.map Prod.snd).foldl max v0 := by
    rcases List.mem_cons.mp hmem with heq | htl
    · exact le_foldl_max _ _ _ (Or.inl (congrArg Prod.snd heq))
    · exact le_foldl_max _ _ _ (Or.inr (List.mem_map_of_mem Prod.snd htl))
  have hminv : (rest.map Prod.snd).foldl min v0 ≤ pv.2 := by
    rcases List.mem_cons.mp hpv with heq | htl
    · exact foldl_min_le _ _ _ (Or.inl (congrArg Prod.snd heq))
    · exact foldl_min_le _ _ _ (Or.inr (List.mem_map_of_mem Prod.snd htl))
  have hneq : ¬ ((rest.map Prod.snd).foldl max v0
      = (rest.map Prod.snd).foldl min v0) := by
    intro h
    rw [h] at hskmax
    linarith
  simp only [update_from_scores, update_from_scores_full]
  rw [hwin, if_neg hneq]
  set L := (((s0, v0) :: rest).map Prod.fst).filter
    (fun s => decide (s ≠ Strategy.keyword)) with hL
  have hfilterPerm : List.Perm L [Strategy.vector, Strategy.hybrid] := by
    rw [hL]
    have hperm := hkeys.filter (fun s => decide (s ≠ Strategy.keyword))
    simpa using hperm
  have hlen2 : L.length = 2 := by
    simpa using hfilterPerm.length_eq
  have hcv : L.count Strategy.vector = 1 := by
    simpa using hfilterPerm.count_eq Strategy.vector
  have hck : L.count Strategy.keyword = 0 := by
    simpa using hfilterPerm.count_eq Strategy.keyword
  have hch : L.count Strategy.hybrid = 1 := by
    simpa using hfilterPerm.count_eq Strategy.hybrid
  have hemp : ¬ (L.isEmpty = true) := by
    rcases hLnil : L with _ | ⟨a, l⟩
    · rw [hLnil] at hlen2
      simp at hlen2
    · simp
  rw [if_neg hemp]
  obtain ⟨hv, hk, hh⟩ := foldl_subLoser_weights L
    (addWinner st Strategy.keyword st.lr) (st.lr / (L.length : K))
  rw [hv, hk, hh, hcv, hck, hch, hlen2]
  simp only [addWinner]
  push_cast
  refine ⟨by ring, by ring, by linarith, by linarith⟩

/-- Witness for C7 at a concrete state and mapping where keyword strictly
dominates. -/
theorem claim_C7_keyword_dominance_grows_margin_witness :
    ((update_from_scores (⟨0, 0, 0, 0.25⟩ : RouterState ℚ)
        [(Strategy.vector, 0), (Strategy.keyword, 1),
          (Strategy.hybrid, 0.5)]).weight_keyword
      - (update_from_scores (⟨0, 0, 0, 0.25⟩ : RouterState ℚ)
        [(Strategy.vector, 0), (Strategy.keyword, 1),
          (Strategy.hybrid, 0.5)]).weight_vector
      = (0 : ℚ) - 0 + 3 / 2 * 0.25)
    ∧ ((update_from_scores (⟨0, 0, 0, 0.25⟩ : RouterState ℚ)
        [(Strategy.vector, 0), (Strategy.keyword, 1),
          (Strategy.hybrid, 0.5)]).weight_keyword
      - (update_from_scores (⟨0, 0, 0, 0.25⟩ : RouterState ℚ)
        [(Strategy.vector, 0), (Strategy.keyword, 1),
          (Strategy.hybrid, 0.5)]).weight_hybrid
      = (0 : ℚ) - 0 + 3 / 2 * 0.25)
    ∧ (0 : ℚ) - 0
      < (update_from_scores (⟨0, 0, 0, 0.25⟩ : RouterState ℚ)
        [(Strategy.vector, 0), (Strategy.keyword, 1),
          (Strategy.hybrid, 0.5)]).weight_keyword
      - (update_from_scores (⟨0, 0, 0, 0.25⟩ : RouterState ℚ)
        [(Strategy.vector, 0), (Strategy.keyword, 1),
          (Strategy.hybrid, 0.5)]).weight_vector
    ∧ (0 : ℚ) - 0
      < (update_from_scores (⟨0, 0, 0, 0.25⟩ : RouterState ℚ)
        [(Strategy.vector, 0), (Strategy.keyword, 1),
          (Strategy.hybrid, 0.5)]).weight_keyword
      - (update_from_scores (⟨0, 0, 0, 0.25⟩ : RouterState ℚ)
        [(Strategy.vector, 0), (Strategy.keyword, 1),
          (Strategy.hybrid, 0.5)]).weight_hybrid := by
  exact claim_C7_keyword_dominance_grows_margin
    (⟨0, 0, 0, 0.25⟩ : RouterState ℚ)
    [(Strategy.vector, 0), (Strategy.keyword, 1), (Strategy.hybrid, 0.5)] 1
    (by decide)
    (by simp)
    (by
      intro p hp hne
      fin_cases hp
      · norm_num
      · exact absurd rfl hne
      · norm_num)
    (by norm_num)

/-- Witness for C6 at a concrete state: the empty mapping and an all-tied
mapping over the three strategies are both no-ops. -/
theorem claim_C6_update_noop_witness :
    update_from_scores_full (⟨1, 2, 3, 0.25⟩ : RouterState ℚ) []
      = (⟨1, 2, 3, 0.25⟩, false)
    ∧ update_from_scores_full (⟨1, 2, 3, 0.25⟩ : RouterState ℚ)
        [(Strategy.vector, 0.5), (Strategy.keyword, 0.5),
          (Strategy.hybrid, 0.5)]
      = (⟨1, 2, 3, 0.25⟩, false) := by
  obtain ⟨h1, h2⟩ := claim_C6_update_noop (⟨1, 2, 3, 0.25⟩ : RouterState ℚ)
  refine ⟨h1, h2 _ ?_⟩
  intro p hp q hq
  fin_cases hp <;> fin_cases hq <;> rfl

/-- Counterexample to C4 as stated: the empty query satisfies the claim's
hypotheses vacuously (every one of its zero tokens contains a digit and is
out of vocabulary, and `rare_terms = ∅ ⊆ ∅ = vocab`), yet
`featurize_query` yields `digit_ratio = 0 ≠ 1` and `choose` under zero
weights selects `vector`, not `keyword`. -/
theorem claim_C4_counterexample :
    (∀ t ∈ tokenize "", t.data.any Char.isDigit = true)
    ∧ (∀ t ∈ tokenize "", (([] : List String).contains t) = false)
    ∧ (featurize_query "" [] [] : QueryFeatures ℚ).digit_ratio ≠ 1.0
    ∧ (AdaptiveRouter.choose [] []
        (⟨0.0, 0.0, 0.0, 0.25⟩ : RouterState ℚ) "").1 ≠ Strategy.keyword := by
  have h0 : tokenize "" = [] := rfl
  refine ⟨by simp [h0], by simp [h0], ?_, ?_⟩
  · have : (featurize_query "" [] [] : QueryFeatures ℚ)
        = ⟨0, 0.0, 0.0, 0.0⟩ := by
      rw [featurize_query, h0]
      simp
    rw [this]
    norm_num
  · have : (featurize_query "" [] [] : QueryFeatures ℚ)
        = ⟨0, 0.0, 0.0, 0.0⟩ := by
      rw [featurize_query, h0]
      simp
    rw [AdaptiveRouter.choose]
    simp only [this, chooseStrategy]
    norm_num
    decide

/-- Claim C4 (amended with the non-emptiness the spec's phrase "a query
composed entirely of digits/IDs" presumes): for every query with at least
one token, all of whose tokens contain a digit and are absent from the
vocabulary, and every `vocab`/`rare_terms` with `rare_terms ⊆ vocab`,
`featurize_query` yields `digit_ratio = 1.0` and `AdaptiveRouter.choose`
with all three learned weights `0.0` selects the keyword strategy. -/
theorem claim_C4_digit_query_routes_keyword {K : Type}
    [LinearOrderedField K] (query : String) (vocab rare_terms : List String)
    (lr : K) (hne : tokenize query ≠ [])
    (hdig : ∀ t ∈ tokenize query, t.data.any Char.isDigit = true)
    (hoov : ∀ t ∈ tokenize query, vocab.contains t = false)
    (hsub : ∀ t, rare_terms.contains t = true → vocab.contains t = true) :
    (featurize_query query vocab rare_terms : QueryFeatures K).digit_ratio
      = 1.0
    ∧ (AdaptiveRouter.choose vocab rare_terms
        (⟨0.0, 0.0, 0.0, lr⟩ : RouterState K) query).1 = Strategy.keyword := by
  have hn : (tokenize query).length ≠ 0 :=
    fun h => hne (List.length_eq_zero.mp h)
  have hnK : (((tokenize query).length : K)) ≠ 0 := by exact_mod_cast hn
  have hdigc : (tokenize query).countP (fun t => t.data.any Char.isDigit)
      = (tokenize query).length :=
    List.countP_eq_length.mpr hdig
  have hoovc : (tokenize query).countP (fun t => !(vocab.contains t))
      = (tokenize query).length :=
    List.countP_eq_length.mpr (fun t ht => by rw [hoov t ht]; rfl)
  have hrarec : (tokenize query).countP (fun t => rare_terms.contains t)
      = 0 := by
    rw [List.countP_eq_zero]
    intro t ht hrt
    have hv := hsub t hrt
    rw [hoov t ht] at hv
    exact Bool.false_ne_true hv
  have hfeat : (featurize_query query vocab rare_terms : QueryFeatures K)
      = ⟨(tokenize query).length, 1.0, 1.0, 0.0⟩ := by
    rw [featurize_query]
    simp only [if_neg hn]
    rw [hdigc, hoovc, hrarec]
    simp only [div_self hnK, Nat.cast_zero, zero_div]
    norm_num
  refine ⟨by rw [hfeat], ?_⟩
  rw [AdaptiveRouter.choose]
  simp only [hfeat, chooseStrategy]
  by_cases h3 : (tokenize query).length ≤ 3 <;>
    simp only [h3, if_true, if_false] <;> norm_num

/-- Witness for the amended C4 at the spec's own example: the query
"INC-49217" (a single all-digit-bearing token) over a vocabulary that does
not contain it routes to keyword. -/
theorem claim_C4_digit_query_routes_keyword_witness :
    (featurize_query "INC-49217" ["cache", "stampede"] []
        : QueryFeatures ℚ).digit_ratio = 1.0
    ∧ (AdaptiveRouter.choose ["cache", "stampede"] []
        (⟨0.0, 0.0, 0.0, 0.25⟩ : RouterState ℚ) "INC-49217").1
      = Strategy.keyword :=
  claim_C4_digit_query_routes_keyword "INC-49217" ["cache", "stampede"] []
    0.25 (by decide) (by decide) (by decide) (fun t h => by simp at h)

/-- Claim C2: in `KeywordRetriever.search` (whose score list is the map of
`scoreDoc` over the corpus), each document's score equals the sum, over the
distinct query tokens that occur in that document, of
`idf[t] * (f*(k1+1)) / (f + k1*(1 - b + b*dl/avg_dl))` with `k1 = 1.5` and
`b = 0.75`; query tokens absent from the corpus vocabulary contribute zero,
and a document containing none of the query tokens scores exactly `0.0`.
Document identity is by `doc_id` (unique per the data model). -/
theorem claim_C2_bm25_formula {K : Type} [LinearOrderedField K]
    (lg : K → K) (docs : List Document) (query : String) (d : Document)
    (hd : d ∈ docs) (hids : (docs.map Document.doc_id).Nodup) :
    (KeywordRetriever.build docs (build_corpus_stats lg docs 1)).scoresFor
        query
      = docs.map
        ((KeywordRetriever.build docs
          (build_corpus_stats lg docs 1)).scoreDoc
          (term_freq (tokenize query)))
    ∧ (KeywordRetriever.build docs (build_corpus_stats lg docs 1)).scoreDoc
        (term_freq (tokenize query)) d
      = bm25SpecScore (build_corpus_stats lg docs 1).idf
          (build_corpus_stats lg docs 1).avg_dl
          (tokenize (d.title ++ " " ++ d.text)) query
    ∧ ((∀ t ∈ tokenize query,
        (tokenize (d.title ++ " " ++ d.text)).count t = 0) →
      (KeywordRetriever.build docs (build_corpus_stats lg docs 1)).scoreDoc
        (term_freq (tokenize query)) d = 0) := by
  have htf : alGet (KeywordRetriever.build docs
      (build_corpus_stats lg docs 1)).doc_tfs d.doc_id
      = some (term_freq (tokenize (d.title ++ " " ++ d.text))) := by
    simp only [KeywordRetriever.build]
    exact alGet_foldl_setById docs _ [] d hids hd
  have hdl : alGet (build_corpus_stats lg docs 1).doc_len d.doc_id
      = some (tokenize (d.title ++ " " ++ d.text)).length := by
    simp only [build_corpus_stats]
    exact corpusAccum_doclen_lookup docs _ d hids hd
  have hstats : (KeywordRetriever.build docs
      (build_corpus_stats lg docs 1)).stats = build_corpus_stats lg docs 1 :=
    rfl
  have hmain : (KeywordRetriever.build docs
      (build_corpus_stats lg docs 1)).scoreDoc
        (term_freq (tokenize query)) d
      = bm25SpecScore (build_corpus_stats lg docs 1).idf
          (build_corpus_stats lg docs 1).avg_dl
          (tokenize (d.title ++ " " ++ d.text)) query := by
    rw [KeywordRetriever.scoreDoc, hstats, htf, hdl]
    simp only [Option.getD_some]
    rw [scoreDoc_foldl_eq_sum, zero_add, bm25SpecScore]
    have hperm := (term_freq_keys_perm_dedup (tokenize query)).map
      (bm25SpecTerm (build_corpus_stats lg docs 1).idf
        (build_corpus_stats lg docs 1).avg_dl
        (tokenize (d.title ++ " " ++ d.text)))
    rw [← hperm.sum_eq]
    apply congrArg List.sum
    apply List.map_congr_left
    intro t ht
    rcases halget : alGet (build_corpus_stats lg docs 1).idf t with _ | w
    · simp only [bm25SpecTerm, halget]
    · have hpos := build_corpus_stats_avg_pos lg docs 1 t w halget
      simp only [bm25SpecTerm, halget, alGet_term_freq_getD]
      rw [if_neg (ne_of_gt hpos)]
      by_cases hf : (tokenize (d.title ++ " " ++ d.text)).count t = 0
      · simp [hf]
      · rw [if_neg (by omega), if_neg hf]
  refine ⟨rfl, hmain, ?_⟩
  intro hall
  rw [hmain, bm25SpecScore]
  apply List.sum_eq_zero
  intro x hx
  obtain ⟨t, ht, rfl⟩ := List.mem_map.mp hx
  have hcz := hall t (List.mem_dedup.mp ht)
  rcases halget : alGet (build_corpus_stats lg docs 1).idf t with _ | w <;>
    simp [bm25SpecTerm, halget, hcz]

/-- Witness for C2 at a two-document corpus over `ℚ` (identity standing in
for `math.log`). -/
theorem claim_C2_bm25_formula_witness :
    (⟨"d1", "Cache", "cache stampede"⟩ : Document)
      ∈ ([⟨"d1", "Cache", "cache stampede"⟩, ⟨"d2", "Guide", "docs"⟩]
        : List Document)
    ∧ (([⟨"d1", "Cache", "cache stampede"⟩, ⟨"d2", "Guide", "docs"⟩]
        : List Document).map Document.doc_id).Nodup
    ∧ (KeywordRetriever.build
        [⟨"d1", "Cache", "cache stampede"⟩, ⟨"d2", "Guide", "docs"⟩]
        (build_corpus_stats (fun x : ℚ => x)
          [⟨"d1", "Cache", "cache stampede"⟩, ⟨"d2", "Guide", "docs"⟩] 1)
        ).scoreDoc (term_freq (tokenize "cache miss"))
        ⟨"d1", "Cache", "cache stampede"⟩
      = bm25SpecScore (build_corpus_stats (fun x : ℚ => x)
          [⟨"d1", "Cache", "cache stampede"⟩, ⟨"d2", "Guide", "docs"⟩] 1).idf
          (build_corpus_stats (fun x : ℚ => x)
            [⟨"d1", "Cache", "cache stampede"⟩, ⟨"d2", "Guide", "docs"⟩]
            1).avg_dl
          (tokenize ("Cache" ++ " " ++ "cache stampede")) "cache miss" := by
  refine ⟨by decide, by decide, ?_⟩
  exact (claim_C2_bm25_formula (fun x : ℚ => x)
    [⟨"d1", "Cache", "cache stampede"⟩, ⟨"d2", "Guide", "docs"⟩]
    "cache miss" ⟨"d1", "Cache", "cache stampede"⟩
    (by decide) (by decide)).2.1

/-- Claim C8: for every query and every `k`, `HybridRetriever.search` over
an empty corpus (all three components built from the empty document list)
returns the empty result list. -/
theorem claim_C8_hybrid_empty_corpus {K : Type} [LinearOrderedField K]
    (lg sq : K → K) (stats : CorpusStats K) (query : String) (k : Nat) :
    HybridRetriever.search lg sq
      ⟨[], VectorRetriever.build lg sq [] stats,
        KeywordRetriever.build [] stats⟩ query k = [] := by
  simp [HybridRetriever.search, KeywordRetriever.search,
    KeywordRetriever.build, KeywordRetriever.scoresFor,
    VectorRetriever.search, VectorRetriever.build,
    VectorRetriever.scoresFor, stable_topk, dedupFirst]

/-- Counterexample to C3 as stated: the cached norm is Python's
`_l2norm(v) or 1.0`, which is the raw norm whenever it is nonzero — not
`max(1.0, norm)`.  For the one-document corpus `[("d1", "", "abcd")]` the
document vector is the single n-gram `"abcd"` with weight
`(1 + ln 1)·ln(4/3) = ln(4/3) ≈ 0.288`, so the cached norm is
`ln(4/3) < 1` while `max(1.0, ‖v‖) = 1`. -/
theorem claim_C3_counterexample :
    alGet (VectorRetriever.build Real.log Real.sqrt
        [⟨"d1", "", "abcd"⟩]
        (build_corpus_stats Real.log [⟨"d1", "", "abcd"⟩] 1)).doc_norms "d1"
      ≠ some (max 1.0 (l2norm Real.sqrt
          ((alGet (VectorRetriever.build Real.log Real.sqrt
            [⟨"d1", "", "abcd"⟩]
            (build_corpus_stats Real.log [⟨"d1", "", "abcd"⟩] 1)).doc_vecs
            "d1").getD []))) := by
  have hmk : ({ data := ['a', 'b', 'c', 'd'] } : String) = "abcd" := rfl
  have hr : List.range 1 = [0] := rfl
  have heval : alGet (VectorRetriever.build Real.log Real.sqrt
      [⟨"d1", "", "abcd"⟩]
      (build_corpus_stats Real.log [⟨"d1", "", "abcd"⟩] 1)).doc_norms "d1"
      = some (if Real.sqrt (Real.log (4 / 3) * Real.log (4 / 3)) = 0 then 1
          else Real.sqrt (Real.log (4 / 3) * Real.log (4 / 3))) := by
    simp only [VectorRetriever.build]
    simp [alSet, alGet, ngramVector, l2norm, charNgrams, normalizeText,
      collapseWs, stripEnds, dedupFirst, term_freq, hr, hmk, Real.log_one]
    norm_num
  have hvec : l2norm Real.sqrt ((alGet (VectorRetriever.build Real.log
      Real.sqrt [⟨"d1", "", "abcd"⟩]
      (build_corpus_stats Real.log [⟨"d1", "", "abcd"⟩] 1)).doc_vecs
      "d1").getD [])
      = Real.sqrt (Real.log (4 / 3) * Real.log (4 / 3)) := by
    simp only [VectorRetriever.build]
    simp [alSet, alGet, ngramVector, l2norm, charNgrams, normalizeText,
      collapseWs, stripEnds, dedupFirst, term_freq, hr, hmk, Real.log_one]
    norm_num
  have hl_pos : 0 < Real.log (4 / 3) := Real.log_pos (by norm_num)
  have hl_lt1 : Real.log (4 / 3) < 1 := lt_of_le_of_lt
    (Real.log_le_sub_one_of_pos (by norm_num)) (by norm_num)
  have hsq : Real.sqrt (Real.log (4 / 3) * Real.log (4 / 3))
      = Real.log (4 / 3) := Real.sqrt_mul_self hl_pos.le
  rw [heval, hvec, hsq, if_neg (ne_of_gt hl_pos)]
  intro hcon
  have h1 := Option.some.inj hcon
  have h2 : max (1.0 : ℝ) (Real.log (4 / 3)) = 1.0 :=
    max_eq_left (by linarith [hl_lt1])
  rw [h2] at h1
  rw [h1] at hl_lt1
  norm_num at hl_lt1

/-- Claim C3 (amended): in `VectorRetriever.build` over the reals, the
norm cached for a document is its vector's true L2 norm when that norm is
nonzero and exactly `1.0` otherwise (Python `_l2norm(v) or 1.0`, not
`max(1.0, norm)`), the cached norm is always strictly positive, and
consequently the cosine-similarity denominator
`queryNorm * doc_norm` in `VectorRetriever.search` is strictly positive —
never zero — for every query and every document. -/
theorem claim_C3_norm_guard (docs : List Document) (stats : CorpusStats ℝ)
    (query : String) (d : Document) (hd : d ∈ docs)
    (hids : (docs.map Document.doc_id).Nodup) :
    (alGet (VectorRetriever.build Real.log Real.sqrt docs stats).doc_norms
        d.doc_id
      = some (if l2norm Real.sqrt
            ((alGet (VectorRetriever.build Real.log Real.sqrt docs
              stats).doc_vecs d.doc_id).getD []) = 0
          then 1.0
          else l2norm Real.sqrt
            ((alGet (VectorRetriever.build Real.log Real.sqrt docs
              stats).doc_vecs d.doc_id).getD [])))
    ∧ 0 < (alGet (VectorRetriever.build Real.log Real.sqrt docs
        stats).doc_norms d.doc_id).getD 1.0
    ∧ 0 < VectorRetriever.queryNorm Real.log Real.sqrt
        (VectorRetriever.build Real.log Real.sqrt docs stats) query
    ∧ 0 < VectorRetriever.queryNorm Real.log Real.sqrt
        (VectorRetriever.build Real.log Real.sqrt docs stats) query
      * (alGet (VectorRetriever.build Real.log Real.sqrt docs
        stats).doc_norms d.doc_id).getD 1.0 := by
  have hnorm : alGet (VectorRetriever.build Real.log Real.sqrt docs
      stats).doc_norms d.doc_id
      = some (if l2norm Real.sqrt
            ((alGet (VectorRetriever.build Real.log Real.sqrt docs
              stats).doc_vecs d.doc_id).getD []) = 0
          then 1.0
          else l2norm Real.sqrt
            ((alGet (VectorRetriever.build Real.log Real.sqrt docs
              stats).doc_vecs d.doc_id).getD [])) := by
    simp only [VectorRetriever.build]
    exact alGet_foldl_setById docs _ [] d hids hd
  have hguard : ∀ x : ℝ, 0 ≤ x → (0 : ℝ) < if x = 0 then 1.0 else x := by
    intro x hx
    by_cases h0 : x = 0
    · rw [if_pos h0]
      norm_num
    · rw [if_neg h0]
      exact lt_of_le_of_ne hx (fun h => h0 h.symm)
  have hl2 : ∀ v : List (String × ℝ), 0 ≤ l2norm Real.sqrt v :=
    fun v => Real.sqrt_nonneg _
  have hdocpos : 0 < (alGet (VectorRetriever.build Real.log Real.sqrt docs
      stats).doc_norms d.doc_id).getD 1.0 := by
    rw [hnorm, Option.getD_some]
    exact hguard _ (hl2 _)
  have hqpos : 0 < VectorRetriever.queryNorm Real.log Real.sqrt
      (VectorRetriever.build Real.log Real.sqrt docs stats) query := by
    rw [VectorRetriever.queryNorm]
    exact hguard _ (hl2 _)
  exact ⟨hnorm, hdocpos, hqpos, mul_pos hqpos hdocpos⟩

/-- Witness for the amended C3 at a one-document corpus. -/
theorem claim_C3_norm_guard_witness :
    (⟨"d1", "", "abcd"⟩ : Document) ∈ ([⟨"d1", "", "abcd"⟩] : List Document)
    ∧ (([⟨"d1", "", "abcd"⟩] : List Document).map Document.doc_id).Nodup
    ∧ 0 < (alGet (VectorRetriever.build Real.log Real.sqrt
        [⟨"d1", "", "abcd"⟩]
        (build_corpus_stats Real.log [⟨"d1", "", "abcd"⟩] 1)).doc_norms
        "d1").getD 1.0 :=
  ⟨by decide, by decide,
    (claim_C3_norm_guard [⟨"d1", "", "abcd"⟩]
      (build_corpus_stats Real.log [⟨"d1", "", "abcd"⟩] 1) "x"
      ⟨"d1", "", "abcd"⟩ (by decide) (by decide)).2.1⟩

/-- Claim C1: for every non-empty corpus and every `k ≥ 1`,
`KeywordRetriever.search` and `VectorRetriever.search` each return at most
`k` results, sorted by non-increasing score with ties broken by ascending
original corpus index, and two calls with identical corpus, query and `k`
return identical result lists (the model is a pure function, so the final
two conjuncts hold by reflexivity). -/
theorem claim_C1_search_topk_sorted_deterministic {K : Type}
    [LinearOrderedField K] (docs : List Document) (stats : CorpusStats K)
    (lg sq : K → K) (query : String) (k : Nat)
    (hne : docs ≠ []) (hk : 1 ≤ k) :
    topkSpecHolds docs
      ((KeywordRetriever.build docs stats).scoresFor query)
      ((KeywordRetriever.build docs stats).search query k) k
    ∧ topkSpecHolds docs
      (VectorRetriever.scoresFor lg sq
        (VectorRetriever.build lg sq docs stats) query)
      (VectorRetriever.search lg sq
        (VectorRetriever.build lg sq docs stats) query k) k
    ∧ (KeywordRetriever.build docs stats).search query k
        = (KeywordRetriever.build docs stats).search query k
    ∧ VectorRetriever.search lg sq
        (VectorRetriever.build lg sq docs stats) query k
      = VectorRetriever.search lg sq
        (VectorRetriever.build lg sq docs stats) query k := by
  refine ⟨?_, ?_, rfl, rfl⟩
  · have hlen : ((KeywordRetriever.build docs stats).scoresFor query).length
        = docs.length := by
      rw [KeywordRetriever.scoresFor, List.length_map]
      rfl
    exact topkSpecHolds_map docs _ k hlen
  · have hlen : (VectorRetriever.scoresFor lg sq
        (VectorRetriever.build lg sq docs stats) query).length
        = docs.length := by
      rw [VectorRetriever.scoresFor]
      simp only [List.length_map]
      rfl
    exact topkSpecHolds_map docs _ k hlen

/-- Witness for C1 at a one-document corpus over `ℚ` (with identity
standing in for the transcendental `log`/`sqrt`, which the ranking
contract does not depend on). -/
theorem claim_C1_search_topk_sorted_deterministic_witness :
    ([⟨"d1", "Cache", "INC-49217 cache"⟩] : List Document) ≠ []
    ∧ 1 ≤ 1
    ∧ (topkSpecHolds [⟨"d1", "Cache", "INC-49217 cache"⟩]
        ((KeywordRetriever.build [⟨"d1", "Cache", "INC-49217 cache"⟩]
          (build_corpus_stats (fun x : ℚ => x)
            [⟨"d1", "Cache", "INC-49217 cache"⟩] 1)).scoresFor "cache")
        ((KeywordRetriever.build [⟨"d1", "Cache", "INC-49217 cache"⟩]
          (build_corpus_stats (fun x : ℚ => x)
            [⟨"d1", "Cache", "INC-49217 cache"⟩] 1)).search "cache" 1) 1
      ∧ topkSpecHolds [⟨"d1", "Cache", "INC-49217 cache"⟩]
        (VectorRetriever.scoresFor (fun x : ℚ => x) (fun x => x)
          (VectorRetriever.build (fun x => x) (fun x => x)
            [⟨"d1", "Cache", "INC-49217 cache"⟩]
            (build_corpus_stats (fun x => x)
              [⟨"d1", "Cache", "INC-49217 cache"⟩] 1)) "cache")
        (VectorRetriever.search (fun x : ℚ => x) (fun x => x)
          (VectorRetriever.build (fun x => x) (fun x => x)
            [⟨"d1", "Cache", "INC-49217 cache"⟩]
            (build_corpus_stats (fun x => x)
              [⟨"d1", "Cache", "INC-49217 cache"⟩] 1)) "cache" 1) 1
      ∧ (KeywordRetriever.build [⟨"d1", "Cache", "INC-49217 cache"⟩]
          (build_corpus_stats (fun x : ℚ => x)
            [⟨"d1", "Cache", "INC-49217 cache"⟩] 1)).search "cache" 1
        = (KeywordRetriever.build [⟨"d1", "Cache", "INC-49217 cache"⟩]
          (build_corpus_stats (fun x : ℚ => x)
            [⟨"d1", "Cache", "INC-49217 cache"⟩] 1)).search "cache" 1
      ∧ VectorRetriever.search (fun x : ℚ => x) (fun x => x)
          (VectorRetriever.build (fun x => x) (fun x => x)
            [⟨"d1", "Cache", "INC-49217 cache"⟩]
            (build_corpus_stats (fun x => x)
              [⟨"d1", "Cache", "INC-49217 cache"⟩] 1)) "cache" 1
        = VectorRetriever.search (fun x : ℚ => x) (fun x => x)
          (VectorRetriever.build (fun x => x) (fun x => x)
            [⟨"d1", "Cache", "INC-49217 cache"⟩]
            (build_corpus_stats (fun x => x)
              [⟨"d1", "Cache", "INC-49217 cache"⟩] 1)) "cache" 1) :=
  ⟨by decide, by decide,
    claim_C1_search_topk_sorted_deterministic
      [⟨"d1", "Cache", "INC-49217 cache"⟩]
      (build_corpus_stats (fun x : ℚ => x)
        [⟨"d1", "Cache", "INC-49217 cache"⟩] 1)
      (fun x => x) (fun x => x) "cache" 1 (by decide) (by decide)⟩
